import Mathlib

/-!
Shallow embedding of the mem0 dashboard control-plane core
(`dashboard/api/app`): the role-based access-control gate
(`projects/deps.py`), authentication token redemption (`auth/service.py`),
project-membership mutation (`projects/service.py`), and the webhook
delivery and retry engine (`webhooks/service.py`).

Database tables become Lean lists of rows; `scalar_one_or_none` over a
filtered SELECT becomes `List.find?` with the same predicate; the clock
and outbound HTTP are passed explicitly (an HTTP attempt's outcome is an
oracle argument, since the network is external to the program).
-/

namespace Mem0

/-! ## Access control gate: `app/projects/deps.py` -/

/-- Embeds `ROLE_HIERARCHY = {"owner": 4, "admin": 3, "member": 2, "viewer": 1}`
together with python's `dict.get(role, 0)` default. -/
def ROLE_HIERARCHY (role : String) : Nat :=
  if role = "owner" then 4
  else if role = "admin" then 3
  else if role = "member" then 2
  else if role = "viewer" then 1
  else 0

/-- Embeds `check_role_level(user_role, min_role)`:
`ROLE_HIERARCHY.get(user_role, 0) >= ROLE_HIERARCHY.get(min_role, 0)`. -/
def check_role_level (user_role : String) (min_role : String) : Bool :=
  decide (ROLE_HIERARCHY min_role ≤ ROLE_HIERARCHY user_role)

/-- The four role strings the spec admits, lowest to highest rank. -/
def validRoles : List String := ["viewer", "member", "admin", "owner"]

/-- A row of the `projects` table, with the fields the embedded
operations consult (`id`, `slug`, `is_archived`). -/
structure ProjectRow where
  pid : Nat
  slug : String
  is_archived : Bool
  deriving DecidableEq, Repr

/-- A row of the `project_members` table (`id`, `project_id`, `user_id`,
`role`, `invited_by`). -/
structure MemberRow where
  mid : Nat
  project_id : Nat
  user_id : Nat
  role : String
  invited_by : Option Nat
  deriving DecidableEq, Repr

/-- An `HTTPException(status_code=..., detail=...)` raised by a service
function. -/
structure HttpErr where
  status_code : Nat
  detail : String
  deriving DecidableEq, Repr

/-- Embeds the dependency built by `require_project_access(min_role)`:
look up the non-archived project by slug (404 if absent), then the
caller's membership row in it (403 if absent), then compare role ranks
(403 if too low); on success return the `(project, membership)` pair. -/
def require_project_access (projects : List ProjectRow) (members : List MemberRow)
    (slug : String) (userId : Nat) (min_role : String) :
    Except HttpErr (ProjectRow × MemberRow) :=
  match projects.find? (fun p => p.slug == slug && !p.is_archived) with
  | none => .error ⟨404, "Project not found"⟩
  | some project =>
    match members.find? (fun m => m.project_id == project.pid && m.user_id == userId) with
    | none => .error ⟨403, "Not a project member"⟩
    | some membership =>
      if check_role_level membership.role min_role then
        .ok (project, membership)
      else
        .error ⟨403, "Requires at least " ++ min_role ++ " role"⟩

/-! ## Theorems for the access-control claims -/

/-- The 403 detail string built for an insufficient role has length
`23 + min_role.length`, so it can never equal the fixed details of the
other two failure branches. -/
theorem role_detail_length (min_role : String) :
    ("Requires at least " ++ min_role ++ " role").length = 23 + min_role.length := by
  rw [String.length_append, String.length_append]
  have h1 : ("Requires at least " : String).length = 18 := rfl
  have h2 : (" role" : String).length = 5 := rfl
  omega

/-- The insufficient-role detail differs from the missing-membership detail. -/
theorem role_detail_ne_not_member (min_role : String) :
    ("Requires at least " ++ min_role ++ " role") ≠ "Not a project member" := by
  intro h
  have hlen := congrArg String.length h
  rw [role_detail_length] at hlen
  have h3 : ("Not a project member" : String).length = 20 := rfl
  omega

/-- A missing non-archived project in `find?` form matches its
quantified reading over the projects table. -/
theorem project_find_none_iff (projects : List ProjectRow) (slug : String) :
    projects.find? (fun p => p.slug == slug && !p.is_archived) = none
      ↔ ∀ p ∈ projects, p.slug = slug → p.is_archived = true := by
  rw [List.find?_eq_none]
  constructor
  · intro h p hp hslug
    have hph := h p hp
    simp [hslug] at hph
    exact hph
  · intro h p hp
    simp only [Bool.and_eq_true, beq_iff_eq, Bool.not_eq_true', not_and]
    intro hslug
    simp [h p hp hslug]

/-- A missing membership row in `find?` form matches its quantified
reading over the members table. -/
theorem member_find_none_iff (members : List MemberRow) (pid userId : Nat) :
    members.find? (fun m => m.project_id == pid && m.user_id == userId) = none
      ↔ ∀ m ∈ members, ¬(m.project_id = pid ∧ m.user_id = userId) := by
  rw [List.find?_eq_none]
  constructor
  · intro h m hm ⟨h1, h2⟩
    have hmh := h m hm
    simp [h1, h2] at hmh
  · intro h m hm
    simp only [Bool.and_eq_true, beq_iff_eq, not_and]
    intro h1 h2
    exact h m hm ⟨h1, h2⟩

/-! ## Authentication service: `app/auth/service.py` -/

/-- A row of the `users` table with the fields `create_user` writes. -/
structure UserRow where
  uid : Nat
  email : String
  name : String
  password_hash : String
  is_active : Bool
  is_superadmin : Bool
  deriving DecidableEq, Repr

/-- A row of the `refresh_tokens` table. Timestamps are modelled as
naturals on one clock. -/
structure RefreshTokenRow where
  user_id : Nat
  token_hash : String
  expires_at : Nat
  revoked_at : Option Nat
  deriving DecidableEq, Repr

/-- Embeds `create_user`: count the user table, then insert a row whose
`is_superadmin` is `count == 0`; the password is stored hashed
(`pwd_context.hash` is the external `hashPw`). Returns the new table and
the new row. -/
def create_user (users : List UserRow) (email : String) (name : String)
    (hashPw : String → String) (password : String) (freshId : Nat) :
    List UserRow × UserRow :=
  let count := users.length
  let user : UserRow :=
    { uid := freshId, email := email, name := name,
      password_hash := hashPw password, is_active := true,
      is_superadmin := decide (count = 0) }
  (users ++ [user], user)

/-- Embeds `refresh_access_token`: hash the presented token
(`_hash_token` is the external `hashFn`), select the row matching the
hash that is unrevoked (`revoked_at IS NULL`) and unexpired
(`expires_at > now`); if none, return `None`, else a fresh access token
for the row's user (`create_access_token` is the external `mkAccess`). -/
def refresh_access_token (tokens : List RefreshTokenRow)
    (hashFn : String → String) (mkAccess : Nat → String)
    (now : Nat) (refresh_token : String) : Option String :=
  let token_hash := hashFn refresh_token
  match tokens.find? (fun rt =>
      rt.token_hash == token_hash && rt.revoked_at.isNone
        && decide (now < rt.expires_at)) with
  | none => none
  | some rt => some (mkAccess rt.user_id)

/-- The selection predicate of `refresh_access_token`, in propositional
form. -/
theorem refresh_token_pred_iff (hash : String) (now : Nat) (rt : RefreshTokenRow) :
    ((rt.token_hash == hash && rt.revoked_at.isNone
        && decide (now < rt.expires_at)) = true)
      ↔ (rt.token_hash = hash ∧ rt.revoked_at = none ∧ now < rt.expires_at) := by
  simp [Option.isNone_iff_eq_none, and_assoc]

/-- C6: `refresh_access_token` redeems iff some stored row matches the
presented token's hash and is both unrevoked and unexpired; any value it
returns is an access token for that row's user; and when every stored
row for the hash is revoked or expired it returns `None` (so a revoked
row never redeems even before expiry, and an expired unrevoked row never
redeems). -/
theorem refresh_access_token_valid_only
    (tokens : List RefreshTokenRow) (hashFn : String → String)
    (mkAccess : Nat → String) (now : Nat) (refresh_token : String) :
    ((refresh_access_token tokens hashFn mkAccess now refresh_token).isSome
      ↔ ∃ rt ∈ tokens, rt.token_hash = hashFn refresh_token
          ∧ rt.revoked_at = none ∧ now < rt.expires_at) ∧
    (∀ s, refresh_access_token tokens hashFn mkAccess now refresh_token = some s →
      ∃ rt ∈ tokens, rt.token_hash = hashFn refresh_token
        ∧ rt.revoked_at = none ∧ now < rt.expires_at ∧ s = mkAccess rt.user_id) ∧
    ((∀ rt ∈ tokens, rt.token_hash = hashFn refresh_token →
        ¬(rt.revoked_at = none ∧ now < rt.expires_at)) →
      refresh_access_token tokens hashFn mkAccess now refresh_token = none) := by
  refine ⟨?_, ?_, ?_⟩
  · cases hf : tokens.find? (fun rt =>
        rt.token_hash == hashFn refresh_token && rt.revoked_at.isNone
          && decide (now < rt.expires_at)) with
    | none =>
      simp only [refresh_access_token, hf]
      constructor
      · intro h
        exact absurd h (by simp)
      · rintro ⟨rt, hmem, hprop⟩
        have hn := List.find?_eq_none.mp hf rt hmem
        exact absurd ((refresh_token_pred_iff (hashFn refresh_token) now rt).mpr hprop) hn
    | some rt =>
      simp only [refresh_access_token, hf]
      constructor
      · intro _
        have h1 := List.find?_some hf
        exact ⟨rt, List.mem_of_find?_eq_some hf,
          (refresh_token_pred_iff (hashFn refresh_token) now rt).mp h1⟩
      · intro _
        simp
  · intro s hs
    cases hf : tokens.find? (fun rt =>
        rt.token_hash == hashFn refresh_token && rt.revoked_at.isNone
          && decide (now < rt.expires_at)) with
    | none =>
      simp only [refresh_access_token, hf] at hs
      exact Option.noConfusion hs
    | some rt =>
      simp only [refresh_access_token, hf, Option.some.injEq] at hs
      have h1 := List.find?_some hf
      have h3 := (refresh_token_pred_iff (hashFn refresh_token) now rt).mp h1
      exact ⟨rt, List.mem_of_find?_eq_some hf, h3.1, h3.2.1, h3.2.2, hs.symm⟩
  · intro hall
    cases hf : tokens.find? (fun rt =>
        rt.token_hash == hashFn refresh_token && rt.revoked_at.isNone
          && decide (now < rt.expires_at)) with
    | none =>
      simp only [refresh_access_token, hf]
    | some rt =>
      exfalso
      have h1 := List.find?_some hf
      have h2 := List.mem_of_find?_eq_some hf
      have h3 := (refresh_token_pred_iff (hashFn refresh_token) now rt).mp h1
      exact hall rt h2 h3.1 ⟨h3.2.1, h3.2.2⟩

/-- C10: the user created by `create_user` is a superadmin iff the user
table was empty at creation; the new table is the old one with exactly
the new row appended; and any user created after any successful creation
is not a superadmin. -/
theorem create_user_first_is_superadmin
    (users : List UserRow) (email : String) (name : String)
    (hashPw : String → String) (password : String) (freshId : Nat) :
    ((create_user users email name hashPw password freshId).2.is_superadmin = true
      ↔ users = []) ∧
    (create_user users email name hashPw password freshId).1
      = users ++ [(create_user users email name hashPw password freshId).2] ∧
    (∀ email2 name2 password2 freshId2,
      (create_user (create_user users email name hashPw password freshId).1
          email2 name2 hashPw password2 freshId2).2.is_superadmin = false) := by
  refine ⟨?_, rfl, ?_⟩
  · simp [create_user, List.length_eq_zero]
  · intro email2 name2 password2 freshId2
    simp [create_user]

/-! ## Project membership mutation: `app/projects/service.py` -/

/-- Replace the first element satisfying `p` by its image under `f`:
SQLAlchemy's in-place update of the single row the preceding
`scalar_one_or_none` loaded. -/
def replaceFirst {α : Type u} (p : α → Bool) (f : α → α) : List α → List α
  | [] => []
  | x :: xs => if p x then f x :: xs else x :: replaceFirst p f xs

/-- Delete the first element satisfying `p`: `db.delete` on the single
row the preceding `scalar_one_or_none` loaded. -/
def removeFirst {α : Type u} (p : α → Bool) : List α → List α
  | [] => []
  | x :: xs => if p x then xs else x :: removeFirst p xs

/-- Embeds `add_member`: resolve the target user by email (404 if
absent), reject an existing membership for the `(project, user)` pair
(409), else append one membership row carrying the supplied role
verbatim. Returns the new table and the new row. -/
def add_member (users : List UserRow) (members : List MemberRow)
    (projectId : Nat) (email : String) (role : String) (invited_by : Nat)
    (freshId : Nat) : Except HttpErr (List MemberRow × MemberRow) :=
  match users.find? (fun u => u.email == email) with
  | none => .error ⟨404, "User not found"⟩
  | some target =>
    match members.find? (fun m => m.project_id == projectId && m.user_id == target.uid) with
    | some _ => .error ⟨409, "User is already a member"⟩
    | none =>
      let membership : MemberRow :=
        { mid := freshId, project_id := projectId, user_id := target.uid,
          role := role, invited_by := some invited_by }
      .ok (members ++ [membership], membership)

/-- Embeds `update_member`: resolve the membership row for the
`(project, user)` pair (404 if absent), refuse to touch an owner row
(400), else overwrite that row's role with the supplied string verbatim.
Returns the new table and the updated row. -/
def update_member (members : List MemberRow) (projectId : Nat) (userId : Nat)
    (role : String) : Except HttpErr (List MemberRow × MemberRow) :=
  match members.find? (fun m => m.project_id == projectId && m.user_id == userId) with
  | none => .error ⟨404, "Member not found"⟩
  | some membership =>
    if membership.role == "owner" then
      .error ⟨400, "Cannot change owner role"⟩
    else
      .ok (replaceFirst (fun m => m.project_id == projectId && m.user_id == userId)
             (fun m => { m with role := role }) members,
           { membership with role := role })

/-- Embeds `remove_member`: resolve the membership row (404 if absent),
refuse to delete an owner row (400), else delete that row. Returns the
new table. -/
def remove_member (members : List MemberRow) (projectId : Nat) (userId : Nat) :
    Except HttpErr (List MemberRow) :=
  match members.find? (fun m => m.project_id == projectId && m.user_id == userId) with
  | none => .error ⟨404, "Member not found"⟩
  | some membership =>
    if membership.role == "owner" then
      .error ⟨400, "Cannot remove project owner"⟩
    else
      .ok (removeFirst (fun m => m.project_id == projectId && m.user_id == userId) members)

/-- One member-update or member-remove request against a project's
membership table. -/
inductive MemberOp where
  | updateRole (projectId : Nat) (userId : Nat) (role : String)
  | removeRow (projectId : Nat) (userId : Nat)
  deriving DecidableEq, Repr

/-- Apply one mutation; a raised `HTTPException` rolls the transaction
back, leaving the table unchanged. -/
def applyMemberOp (members : List MemberRow) : MemberOp → List MemberRow
  | .updateRole pid uid role =>
    match update_member members pid uid role with
    | .ok (ms, _) => ms
    | .error _ => members
  | .removeRow pid uid =>
    match remove_member members pid uid with
    | .ok ms => ms
    | .error _ => members

/-- Run a sequence of member-update/remove operations. -/
def runMemberOps (members : List MemberRow) (ops : List MemberOp) : List MemberRow :=
  ops.foldl applyMemberOp members

/-- An element other than the one `find?` located survives
`replaceFirst` with the same predicate. -/
theorem mem_replaceFirst_of_mem {α : Type u} (p : α → Bool) (f : α → α)
    (x m0 : α) (ms : List α) (hf : ms.find? p = some m0) (hx : x ∈ ms)
    (hne : x ≠ m0) : x ∈ replaceFirst p f ms := by
  induction ms with
  | nil => exact absurd hx (List.not_mem_nil x)
  | cons a t ih =>
    by_cases hpa : p a
    · rw [List.find?_cons_of_pos _ hpa] at hf
      have ha : a = m0 := by injection hf
      rcases List.mem_cons.mp hx with h | h
      · exact absurd (h.trans ha) hne
      · simp only [replaceFirst, if_pos hpa]
        exact List.mem_cons_of_mem _ h
    · rw [List.find?_cons_of_neg _ hpa] at hf
      simp only [replaceFirst, if_neg hpa]
      rcases List.mem_cons.mp hx with h | h
      · exact h ▸ List.mem_cons_self a _
      · exact List.mem_cons_of_mem _ (ih hf h)

/-- An element other than the one `find?` located survives
`removeFirst` with the same predicate. -/
theorem mem_removeFirst_of_mem {α : Type u} (p : α → Bool)
    (x m0 : α) (ms : List α) (hf : ms.find? p = some m0) (hx : x ∈ ms)
    (hne : x ≠ m0) : x ∈ removeFirst p ms := by
  induction ms with
  | nil => exact absurd hx (List.not_mem_nil x)
  | cons a t ih =>
    by_cases hpa : p a
    · rw [List.find?_cons_of_pos _ hpa] at hf
      have ha : a = m0 := by injection hf
      rcases List.mem_cons.mp hx with h | h
      · exact absurd (h.trans ha) hne
      · simp only [removeFirst, if_pos hpa]
        exact h
    · rw [List.find?_cons_of_neg _ hpa] at hf
      simp only [removeFirst, if_neg hpa]
      rcases List.mem_cons.mp hx with h | h
      · exact h ▸ List.mem_cons_self a _
      · exact List.mem_cons_of_mem _ (ih hf h)

/-- The image of the element `find?` located is in the `replaceFirst`
result. -/
theorem replaceFirst_mem_image {α : Type u} (p : α → Bool) (f : α → α)
    (m0 : α) (ms : List α) (hf : ms.find? p = some m0) :
    f m0 ∈ replaceFirst p f ms := by
  induction ms with
  | nil => exact absurd hf (by simp)
  | cons a t ih =>
    by_cases hpa : p a
    · rw [List.find?_cons_of_pos _ hpa] at hf
      have ha : a = m0 := by injection hf
      subst ha
      simp only [replaceFirst, if_pos hpa]
      exact List.mem_cons_self _ _
    · rw [List.find?_cons_of_neg _ hpa] at hf
      simp only [replaceFirst, if_neg hpa]
      exact List.mem_cons_of_mem _ (ih hf)

/-- A membership row holding the owner role survives one member-update
or member-remove operation unchanged. -/
theorem owner_mem_applyMemberOp (members : List MemberRow) (op : MemberOp)
    (m : MemberRow) (hm : m ∈ members) (hrole : m.role = "owner") :
    m ∈ applyMemberOp members op := by
  cases op with
  | updateRole pid uid role =>
    unfold applyMemberOp
    cases hf : members.find? (fun x => x.project_id == pid && x.user_id == uid) with
    | none => simp only [update_member, hf]; exact hm
    | some m0 =>
      by_cases ho : m0.role == "owner"
      · simp only [update_member, hf, if_pos ho]
        exact hm
      · simp only [update_member, hf, if_neg ho]
        refine mem_replaceFirst_of_mem _ _ m m0 members hf hm ?_
        intro heq
        rw [← heq, hrole] at ho
        exact ho (by decide)
  | removeRow pid uid =>
    unfold applyMemberOp
    cases hf : members.find? (fun x => x.project_id == pid && x.user_id == uid) with
    | none => simp only [remove_member, hf]; exact hm
    | some m0 =>
      by_cases ho : m0.role == "owner"
      · simp only [remove_member, hf, if_pos ho]
        exact hm
      · simp only [remove_member, hf, if_neg ho]
        refine mem_removeFirst_of_mem _ m m0 members hf hm ?_
        intro heq
        rw [← heq, hrole] at ho
        exact ho (by decide)

/-- C7: a membership row holding the owner role is never changed or
deleted by any sequence of member-update/remove operations (each such
operation on it fails with a 400 error and rolls back), and on any
owner row both single operations return exactly the 400 errors the code
raises. -/
theorem owner_row_immutable
    (members : List MemberRow) (ops : List MemberOp) (m : MemberRow) :
    ((m ∈ members ∧ m.role = "owner") → m ∈ runMemberOps members ops) ∧
    (∀ pid uid role m0,
      members.find? (fun x => x.project_id == pid && x.user_id == uid) = some m0 →
      m0.role = "owner" →
      update_member members pid uid role = .error ⟨400, "Cannot change owner role"⟩ ∧
      remove_member members pid uid = .error ⟨400, "Cannot remove project owner"⟩) := by
  constructor
  · rintro ⟨hm, hrole⟩
    unfold runMemberOps
    induction ops generalizing members with
    | nil => exact hm
    | cons op rest ih =>
      exact ih (applyMemberOp members op) (owner_mem_applyMemberOp members op m hm hrole)
  · intro pid uid role m0 hf ho
    constructor
    · simp only [update_member, hf, if_pos (show (m0.role == "owner") = true by simp [ho])]
    · simp only [remove_member, hf, if_pos (show (m0.role == "owner") = true by simp [ho])]

/-- C8 counterexample: `add_member` accepts and persists the role string
"superuser", which is not one of the four valid roles, refuting the
claim that any other role string is rejected as invalid input with no
membership row created. -/
theorem add_member_accepts_invalid_role :
    ("superuser" ∉ validRoles) ∧
    add_member [⟨2, "bob@example.com", "Bob", "h", true, false⟩] [] 1
        "bob@example.com" "superuser" 9 100
      = .ok ([⟨100, 1, 2, "superuser", some 9⟩], ⟨100, 1, 2, "superuser", some 9⟩) := by
  exact ⟨by decide, rfl⟩

/-- C8 amended: membership mutation does not validate the role string:
`add_member` appends exactly one row carrying the supplied role verbatim
(whatever string it is), and `update_member` persists the supplied role
verbatim on the resolved non-owner row. -/
theorem member_role_passthrough
    (users : List UserRow) (members : List MemberRow)
    (projectId : Nat) (userId : Nat) (invited_by : Nat) (freshId : Nat)
    (email : String) (role : String) :
    (∀ ms mrow, add_member users members projectId email role invited_by freshId
        = .ok (ms, mrow) → mrow.role = role ∧ ms = members ++ [mrow]) ∧
    (∀ ms mrow, update_member members projectId userId role
        = .ok (ms, mrow) → mrow.role = role ∧ mrow ∈ ms) := by
  constructor
  · intro ms mrow hok
    cases hfu : users.find? (fun u => u.email == email) with
    | none =>
      simp only [add_member, hfu] at hok
      exact Except.noConfusion hok
    | some target =>
      cases hfm : members.find? (fun m => m.project_id == projectId && m.user_id == target.uid) with
      | some m0 =>
        simp only [add_member, hfu, hfm] at hok
        exact Except.noConfusion hok
      | none =>
        simp only [add_member, hfu, hfm, Except.ok.injEq, Prod.mk.injEq] at hok
        obtain ⟨hms, hmrow⟩ := hok
        rw [← hmrow, ← hms]
        exact ⟨rfl, rfl⟩
  · intro ms mrow hok
    cases hfm : members.find? (fun m => m.project_id == projectId && m.user_id == userId) with
    | none =>
      simp only [update_member, hfm] at hok
      exact Except.noConfusion hok
    | some m0 =>
      by_cases ho : m0.role == "owner"
      · simp only [update_member, hfm, if_pos ho] at hok
        exact Except.noConfusion hok
      · simp only [update_member, hfm, if_neg ho, Except.ok.injEq, Prod.mk.injEq] at hok
        obtain ⟨hms, hmrow⟩ := hok
        constructor
        · rw [← hmrow]
        · rw [← hms, ← hmrow]
          exact replaceFirst_mem_image _ _ m0 members hfm

/-! ## Webhook delivery engine: `app/webhooks/service.py`

The outcome of an outbound POST is external to the program (the
network), so every attempt receives its outcome from an oracle argument:
per webhook id for `fire_webhook`, per delivery id for the retry sweep.
Row ids that the database would generate come from a fresh-id source. -/

/-- The outcome of one outbound HTTP POST: a response with status code
and body text, or a transport failure (timeout, DNS error, connection
refusal) caught as `httpx.HTTPError` and carrying its message. -/
inductive HttpResult where
  | response (status : Nat) (body : String)
  | transportError (msg : String)
  deriving DecidableEq, Repr

/-- A row of the `webhooks` table. -/
structure WebhookRow where
  wid : Nat
  project_id : Nat
  url : String
  secret : String
  events : List String
  is_active : Bool
  last_triggered_at : Option Nat
  last_status_code : Option Nat
  deriving DecidableEq, Repr

/-- A row of the `webhook_deliveries` table; `payload` is the stored
JSON payload, kept abstract as its serialized text. -/
structure DeliveryRow where
  did : Nat
  webhook_id : Nat
  event : String
  payload : String
  status_code : Option Nat
  response_body : Option String
  attempt_count : Nat
  delivered_at : Option Nat
  deriving DecidableEq, Repr

/-- The success test `200 <= status_code < 300`. -/
def is2xx (status : Nat) : Bool := decide (200 ≤ status ∧ status < 300)

/-- Whether an HTTP attempt outcome is a 2xx response. -/
def got2xx : HttpResult → Bool
  | .response status _ => is2xx status
  | .transportError _ => false

/-- Embeds `_deliver`: build a fresh delivery row with `attempt_count`
1, POST, record the status code and the truncated body on a response
(setting `delivered_at` on a 2xx) or the truncated error string on a
transport failure, then update the webhook's denormalized
`last_triggered_at` and `last_status_code`. Returns the recorded row
and the updated webhook. -/
def deliverAttempt (wh : WebhookRow) (event : String) (payload : String)
    (res : HttpResult) (now : Nat) (freshId : Nat) : DeliveryRow × WebhookRow :=
  let d0 : DeliveryRow :=
    { did := freshId, webhook_id := wh.wid, event := event, payload := payload,
      status_code := none, response_body := none, attempt_count := 1,
      delivered_at := none }
  let d :=
    match res with
    | .response status body =>
      { d0 with
          status_code := some status,
          response_body := if body = "" then none else some (body.take 2000),
          delivered_at := if is2xx status then some now else none }
    | .transportError msg =>
      { d0 with response_body := some (msg.take 2000) }
  (d, { wh with last_triggered_at := some now, last_status_code := d.status_code })

/-- The SQL selection of `fire_webhook`: the project's active webhooks. -/
def activeWebhooks (webhooks : List WebhookRow) (projectId : Nat) : List WebhookRow :=
  webhooks.filter (fun w => w.project_id == projectId && w.is_active)

/-- The python comprehension of `fire_webhook`: among the active
webhooks, those whose subscribed-event list contains the fired event or
the wildcard `"*"`. -/
def matchingWebhooks (webhooks : List WebhookRow) (projectId : Nat) (event : String) :
    List WebhookRow :=
  (activeWebhooks webhooks projectId).filter
    (fun w => w.events.contains event || w.events.contains "*")

/-- Embeds `fire_webhook`: one delivery attempt per matching webhook, in
order; returns the recorded delivery rows. -/
def fire_webhook (webhooks : List WebhookRow) (projectId : Nat) (event : String)
    (payload : String) (http : Nat → HttpResult) (now : Nat)
    (freshIds : Nat → Nat) : List DeliveryRow :=
  (matchingWebhooks webhooks projectId event).map
    (fun w => (deliverAttempt w event payload (http w.wid) now (freshIds w.wid)).1)

/-- Embeds `test_webhook`: resolve the webhook (`None` if absent) and
run one delivery of the synthetic `webhook.test` event through the same
`_deliver` path. -/
def test_webhook (webhooks : List WebhookRow) (webhookId : Nat)
    (testPayload : String) (res : HttpResult) (now : Nat) (freshId : Nat) :
    Option DeliveryRow :=
  match webhooks.find? (fun w => w.wid == webhookId) with
  | none => none
  | some wh => some (deliverAttempt wh "webhook.test" testPayload res now freshId).1

/-- The retry sweep's selection predicate: `delivered_at` unset and
`attempt_count < 3`. -/
def retryEligible (d : DeliveryRow) : Bool :=
  d.delivered_at.isNone && decide (d.attempt_count < 3)

/-- Whether a delivery's parent webhook still exists and is active (the
sweep skips the row otherwise). -/
def webhookAlive (webhooks : List WebhookRow) (webhookId : Nat) : Bool :=
  match webhooks.find? (fun w => w.wid == webhookId) with
  | none => false
  | some wh => wh.is_active

/-- The body of the sweep's loop past the skip test: increment
`attempt_count`, re-POST the stored payload, record status and body on
a response, setting `delivered_at` on a 2xx, or record the error string
on a transport failure. Returns the updated row and whether this retry
counted as a success. -/
def attemptRetry (d : DeliveryRow) (res : HttpResult) (now : Nat) :
    DeliveryRow × Bool :=
  let d1 := { d with attempt_count := d.attempt_count + 1 }
  match res with
  | .response status body =>
    ({ d1 with
        status_code := some status,
        response_body := if body = "" then none else some (body.take 2000),
        delivered_at := if is2xx status then some now else d1.delivered_at },
     is2xx status)
  | .transportError msg =>
    ({ d1 with response_body := some (msg.take 2000) }, false)

/-- The sweep's running state: the webhooks table (whose denormalized
fields the loop writes back), the delivery rows already passed, and the
running count of retries that got a 2xx. -/
structure SweepState where
  webhooks : List WebhookRow
  processed : List DeliveryRow
  retried : Nat
  deriving Repr

/-- Write a webhook row back into the table, keyed by id. -/
def updateWebhook (webhooks : List WebhookRow) (wh : WebhookRow) : List WebhookRow :=
  webhooks.map (fun w => if w.wid == wh.wid then wh else w)

/-- One sweep iteration over one delivery row: rows the query does not
select pass unchanged; for a selected row, re-resolve the parent
webhook and skip if it was deleted or deactivated, else retry and write
back the webhook's denormalized fields. -/
def retryStep (http : Nat → HttpResult) (now : Nat) (st : SweepState)
    (d : DeliveryRow) : SweepState :=
  if retryEligible d then
    match st.webhooks.find? (fun w => w.wid == d.webhook_id) with
    | none => { st with processed := st.processed ++ [d] }
    | some wh =>
      if wh.is_active then
        let r := attemptRetry d (http d.did) now
        { webhooks := updateWebhook st.webhooks
            { wh with last_triggered_at := some now,
                      last_status_code := r.1.status_code },
          processed := st.processed ++ [r.1],
          retried := st.retried + (if r.2 then 1 else 0) }
      else { st with processed := st.processed ++ [d] }
  else { st with processed := st.processed ++ [d] }

/-- Embeds `retry_failed_deliveries` as a pass over the whole deliveries
table (the SQL selection becomes the per-row `retryEligible` test); the
final state's `processed` is the table after the sweep and `retried` is
the function's return value. -/
def retry_failed_deliveries (webhooks : List WebhookRow)
    (deliveries : List DeliveryRow) (http : Nat → HttpResult) (now : Nat) :
    SweepState :=
  deliveries.foldl (retryStep http now) ⟨webhooks, [], 0⟩

/-- What one sweep iteration leaves of a delivery row: unchanged unless
the query selected it and its parent webhook is alive, in which case
the retried row. -/
def retryRow (webhooks : List WebhookRow) (http : Nat → HttpResult) (now : Nat)
    (d : DeliveryRow) : DeliveryRow :=
  if retryEligible d then
    if webhookAlive webhooks d.webhook_id then (attemptRetry d (http d.did) now).1
    else d
  else d

/-- Whether the sweep increments its success counter on a given row:
the row was selected, its webhook alive, and the retry got a 2xx. -/
def retryCounted (webhooks : List WebhookRow) (http : Nat → HttpResult)
    (d : DeliveryRow) : Bool :=
  retryEligible d && webhookAlive webhooks d.webhook_id && got2xx (http d.did)

/-- The success flag of a retry is exactly whether the POST outcome was
a 2xx response. -/
theorem attemptRetry_snd (d : DeliveryRow) (res : HttpResult) (now : Nat) :
    (attemptRetry d res now).2 = got2xx res := by
  cases res <;> rfl

/-- Writing back a webhook row does not change what a lookup for a
different id finds. -/
theorem find?_updateWebhook_ne (ws : List WebhookRow) (wh : WebhookRow)
    (j : Nat) (hne : j ≠ wh.wid) :
    (updateWebhook ws wh).find? (fun w => w.wid == j)
      = ws.find? (fun w => w.wid == j) := by
  induction ws with
  | nil => rfl
  | cons a t ih =>
    simp only [updateWebhook, List.map_cons] at ih ⊢
    by_cases ha : (a.wid == wh.wid) = true
    · rw [if_pos ha]
      have hwj : ¬((wh.wid == j) = true) := by
        simp only [beq_iff_eq]
        intro h
        exact hne h.symm
      have haj : ¬((a.wid == j) = true) := by
        simp only [beq_iff_eq] at ha ⊢
        rw [ha]
        intro h
        exact hne h.symm
      rw [List.find?_cons_of_neg (p := fun (w : WebhookRow) => w.wid == j) _ hwj,
        List.find?_cons_of_neg (p := fun (w : WebhookRow) => w.wid == j) _ haj]
      exact ih
    · rw [if_neg ha]
      by_cases haj : (a.wid == j) = true
      · rw [List.find?_cons_of_pos (p := fun (w : WebhookRow) => w.wid == j) _ haj,
          List.find?_cons_of_pos (p := fun (w : WebhookRow) => w.wid == j) _ haj]
      · rw [List.find?_cons_of_neg (p := fun (w : WebhookRow) => w.wid == j) _ haj,
          List.find?_cons_of_neg (p := fun (w : WebhookRow) => w.wid == j) _ haj]
        exact ih

/-- Writing back a row with the found row's id makes the lookup for
that id find the written row. -/
theorem find?_updateWebhook_eq (ws : List WebhookRow) (i : Nat)
    (wh wh' : WebhookRow) (hwid : wh'.wid = wh.wid)
    (hf : ws.find? (fun w => w.wid == i) = some wh) :
    (updateWebhook ws wh').find? (fun w => w.wid == i) = some wh' := by
  have hwi : wh.wid = i := by
    have h1 := List.find?_some hf
    simpa using h1
  induction ws with
  | nil => exact absurd hf (by simp)
  | cons a t ih =>
    simp only [updateWebhook, List.map_cons] at ih ⊢
    by_cases ha : (a.wid == wh'.wid) = true
    · rw [if_pos ha]
      rw [List.find?_cons_of_pos (p := fun (w : WebhookRow) => w.wid == i) _ (by simp [hwid, hwi])]
    · rw [if_neg ha]
      have ha2 : ¬((a.wid == i) = true) := by
        simp only [beq_iff_eq] at ha ⊢
        rw [hwid, hwi] at ha
        exact ha
      rw [List.find?_cons_of_neg (p := fun (w : WebhookRow) => w.wid == i) _ ha2]
      rw [List.find?_cons_of_neg (p := fun (w : WebhookRow) => w.wid == i) _ ha2] at hf
      exact ih hf

/-- Writing back a webhook row with unchanged id and active flag
preserves every aliveness decision. -/
theorem webhookAlive_updateWebhook (ws : List WebhookRow) (i : Nat)
    (wh wh' : WebhookRow) (hwid : wh'.wid = wh.wid)
    (hact : wh'.is_active = wh.is_active)
    (hf : ws.find? (fun w => w.wid == i) = some wh) (j : Nat) :
    webhookAlive (updateWebhook ws wh') j = webhookAlive ws j := by
  have hwi : wh.wid = i := by
    have h1 := List.find?_some hf
    simpa using h1
  by_cases hj : j = i
  · subst hj
    unfold webhookAlive
    rw [find?_updateWebhook_eq ws j wh wh' hwid hf, hf]
    exact hact
  · unfold webhookAlive
    rw [find?_updateWebhook_ne ws wh' j (by rw [hwid, hwi]; exact hj)]

/-- One sweep iteration appends exactly the per-row result, adds the
per-row success count, and preserves webhook aliveness. -/
theorem retryStep_spec (http : Nat → HttpResult) (now : Nat) (st : SweepState)
    (d : DeliveryRow) :
    (retryStep http now st d).processed
        = st.processed ++ [retryRow st.webhooks http now d] ∧
    (retryStep http now st d).retried
        = st.retried + (if retryCounted st.webhooks http d then 1 else 0) ∧
    (∀ j, webhookAlive (retryStep http now st d).webhooks j
        = webhookAlive st.webhooks j) := by
  by_cases he : retryEligible d = true
  · cases hf : st.webhooks.find? (fun w => w.wid == d.webhook_id) with
    | none =>
      have halive : webhookAlive st.webhooks d.webhook_id = false := by
        unfold webhookAlive
        rw [hf]
      refine ⟨?_, ?_, ?_⟩
      · simp [retryStep, he, hf, retryRow, halive]
      · simp [retryStep, he, hf, retryCounted, halive]
      · intro j
        simp [retryStep, he, hf]
    | some wh =>
      have halive : webhookAlive st.webhooks d.webhook_id = wh.is_active := by
        unfold webhookAlive
        rw [hf]
      by_cases hact : wh.is_active = true
      · refine ⟨?_, ?_, ?_⟩
        · simp [retryStep, he, hf, hact, retryRow, halive]
        · simp [retryStep, he, hf, hact, retryCounted, halive, attemptRetry_snd]
        · intro j
          simp only [retryStep, if_pos he, hf, if_pos hact]
          exact webhookAlive_updateWebhook st.webhooks d.webhook_id wh
            { wh with last_triggered_at := some now,
                      last_status_code := (attemptRetry d (http d.did) now).1.status_code }
            rfl rfl hf j

      · refine ⟨?_, ?_, ?_⟩
        · simp [retryStep, he, hf, hact, retryRow, halive]
        · simp [retryStep, he, hf, hact, retryCounted, halive]
        · intro j
          simp [retryStep, he, hf, hact]
  · refine ⟨?_, ?_, ?_⟩
    · simp [retryStep, he, retryRow]
    · simp [retryStep, he, retryCounted]
    · intro j
      simp [retryStep, he]

/-- Folding the sweep over a deliveries list from any state appends the
per-row results and adds the per-row success counts; aliveness
decisions may be read off any alive-equivalent webhooks table. -/
theorem retry_foldl_spec (http : Nat → HttpResult) (now : Nat)
    (ds : List DeliveryRow) (st : SweepState) (ws0 : List WebhookRow)
    (h : ∀ j, webhookAlive st.webhooks j = webhookAlive ws0 j) :
    (ds.foldl (retryStep http now) st).processed
        = st.processed ++ ds.map (retryRow ws0 http now) ∧
    (ds.foldl (retryStep http now) st).retried
        = st.retried + ds.countP (retryCounted ws0 http) := by
  induction ds generalizing st with
  | nil => simp
  | cons d rest ih =>
    obtain ⟨hp, hr, ha⟩ := retryStep_spec http now st d
    have h2 : ∀ j, webhookAlive (retryStep http now st d).webhooks j
        = webhookAlive ws0 j := fun j => (ha j).trans (h j)
    obtain ⟨ihp, ihr⟩ := ih (retryStep http now st d) h2
    have hrow : retryRow st.webhooks http now d = retryRow ws0 http now d := by
      unfold retryRow
      rw [h d.webhook_id]
    have hcnt : retryCounted st.webhooks http d = retryCounted ws0 http d := by
      unfold retryCounted
      rw [h d.webhook_id]
    constructor
    · rw [List.foldl_cons, ihp, hp, List.append_assoc, List.singleton_append,
        hrow, List.map_cons]
    · rw [List.foldl_cons, ihr, hr, hcnt, List.countP_cons]
      cases hb : retryCounted ws0 http d <;> simp [hb] <;> omega

/-- C1: the retry sweep leaves every row that `delivered_at` set or
`attempt_count` at 3 excluded from selection unchanged, leaves selected
rows whose parent webhook is gone or inactive unchanged, retries every
other selected row with `attempt_count` incremented by exactly 1, and
returns the number of deliveries whose retry got a 2xx response in this
sweep. -/
theorem retry_failed_deliveries_correct (webhooks : List WebhookRow)
    (deliveries : List DeliveryRow) (http : Nat → HttpResult) (now : Nat) :
    ((retry_failed_deliveries webhooks deliveries http now).processed
        = deliveries.map (retryRow webhooks http now)) ∧
    ((retry_failed_deliveries webhooks deliveries http now).retried
        = deliveries.countP (retryCounted webhooks http)) ∧
    (∀ d res n, ((attemptRetry d res n).1).attempt_count = d.attempt_count + 1) ∧
    (∀ d, retryEligible d = false → retryRow webhooks http now d = d) ∧
    (∀ d, webhookAlive webhooks d.webhook_id = false →
        retryRow webhooks http now d = d) := by
  obtain ⟨hp, hr⟩ := retry_foldl_spec http now deliveries ⟨webhooks, [], 0⟩ webhooks
    (fun j => rfl)
  refine ⟨?_, ?_, ?_, ?_, ?_⟩
  · simpa [retry_failed_deliveries] using hp
  · simpa [retry_failed_deliveries] using hr
  · intro d res n
    cases res <;> rfl
  · intro d hd
    simp [retryRow, hd]
  · intro d hd
    simp [retryRow, hd]

/-- C2: every delivery attempt (the fire path and the test path both go
through `_deliver`) records exactly one fresh row with `attempt_count`
1; on a response the row carries the status code and `delivered_at` is
set iff the status is in `[200, 300)`; on a transport failure the row
has no status code and `delivered_at` unset; `fire_webhook` records one
such row per matching webhook and `test_webhook` records one such row
for the resolved webhook. -/
theorem delivery_attempt_row_correct
    (wh : WebhookRow) (event : String) (payload : String)
    (status : Nat) (body : String) (msg : String) (now : Nat) (freshId : Nat) :
    (((deliverAttempt wh event payload (.response status body) now freshId).1).attempt_count = 1 ∧
     ((deliverAttempt wh event payload (.response status body) now freshId).1).status_code
        = some status ∧
     ((deliverAttempt wh event payload (.response status body) now freshId).1).delivered_at
        = (if is2xx status then some now else none)) ∧
    (∀ s, is2xx s = true ↔ (200 ≤ s ∧ s < 300)) ∧
    (((deliverAttempt wh event payload (.transportError msg) now freshId).1).attempt_count = 1 ∧
     ((deliverAttempt wh event payload (.transportError msg) now freshId).1).status_code
        = none ∧
     ((deliverAttempt wh event payload (.transportError msg) now freshId).1).delivered_at
        = none) ∧
    (∀ webhooks projectId http freshIds,
      fire_webhook webhooks projectId event payload http now freshIds
        = (matchingWebhooks webhooks projectId event).map
            (fun w => (deliverAttempt w event payload (http w.wid) now (freshIds w.wid)).1)) ∧
    (∀ webhooks webhookId testPayload res fid dRow,
      test_webhook webhooks webhookId testPayload res now fid = some dRow →
      ∃ w, webhooks.find? (fun x => x.wid == webhookId) = some w ∧
        dRow = (deliverAttempt w "webhook.test" testPayload res now fid).1) := by
  refine ⟨⟨rfl, rfl, rfl⟩, ?_, ⟨rfl, rfl, rfl⟩, fun _ _ _ _ => rfl, ?_⟩
  · intro s
    simp [is2xx]
  · intro webhooks webhookId testPayload res fid dRow hres
    cases hfw : webhooks.find? (fun x => x.wid == webhookId) with
    | none =>
      simp only [test_webhook, hfw] at hres
      exact Option.noConfusion hres
    | some w =>
      simp only [test_webhook, hfw, Option.some.injEq] at hres
      exact ⟨w, rfl, hres.symm⟩

/-- C3: a transport failure during the POST is recorded on the attempt
row with no status code, the error string (capped at 2000 characters)
as response body and `delivered_at` unset; `fire_webhook` is a total
function of its delivery outcomes, so under an oracle in which every
POST raises a transport error it still returns one recorded row per
matching webhook, each undelivered with no status code. -/
theorem transport_failure_recorded_not_raised
    (wh : WebhookRow) (event : String) (payload : String) (msg : String)
    (now : Nat) (freshId : Nat) (webhooks : List WebhookRow) (projectId : Nat)
    (msgOf : Nat → String) (freshIds : Nat → Nat) :
    ((deliverAttempt wh event payload (.transportError msg) now freshId).1.status_code
        = none) ∧
    ((deliverAttempt wh event payload (.transportError msg) now freshId).1.response_body
        = some (msg.take 2000)) ∧
    ((deliverAttempt wh event payload (.transportError msg) now freshId).1.delivered_at
        = none) ∧
    ((fire_webhook webhooks projectId event payload
        (fun i => .transportError (msgOf i)) now freshIds).length
      = (matchingWebhooks webhooks projectId event).length) ∧
    ((fire_webhook webhooks projectId event payload
        (fun i => .transportError (msgOf i)) now freshIds).all
        (fun d => d.status_code.isNone && d.delivered_at.isNone) = true) := by
  refine ⟨rfl, rfl, rfl, ?_, ?_⟩
  · simp [fire_webhook]
  · simp only [fire_webhook, List.all_eq_true]
    intro d hd
    obtain ⟨w, hw, hdw⟩ := List.mem_map.mp hd
    rw [← hdw]
    rfl

/-- C9: `fire_webhook` records one delivery row per matching webhook in
order, carrying that webhook's id; a webhook matches iff it belongs to
the project, is active, and subscribes to the fired event or to the
wildcard `"*"`; with no matching webhook the result is empty. -/
theorem fire_webhook_matches_subscriptions
    (webhooks : List WebhookRow) (projectId : Nat) (event : String)
    (payload : String) (http : Nat → HttpResult) (now : Nat)
    (freshIds : Nat → Nat) :
    ((fire_webhook webhooks projectId event payload http now freshIds).map
        DeliveryRow.webhook_id
      = (matchingWebhooks webhooks projectId event).map WebhookRow.wid) ∧
    (∀ w, w ∈ matchingWebhooks webhooks projectId event
      ↔ (w ∈ webhooks ∧ w.project_id = projectId ∧ w.is_active = true
          ∧ (event ∈ w.events ∨ "*" ∈ w.events))) ∧
    (matchingWebhooks webhooks projectId event = [] →
      fire_webhook webhooks projectId event payload http now freshIds = []) := by
  refine ⟨?_, ?_, ?_⟩
  · rw [fire_webhook, List.map_map]
    induction matchingWebhooks webhooks projectId event with
    | nil => rfl
    | cons a t ih =>
      rw [List.map_cons, List.map_cons, ih]
      have ha : ((deliverAttempt a event payload (http a.wid) now
          (freshIds a.wid)).1).webhook_id = a.wid := by
        cases http a.wid <;> rfl
      rw [Function.comp_apply, ha]
  · intro w
    constructor
    · intro hw
      simp only [matchingWebhooks, activeWebhooks, List.mem_filter, Bool.and_eq_true,
        Bool.or_eq_true, beq_iff_eq] at hw
      obtain ⟨⟨hmem, hpid, hact⟩, hev⟩ := hw
      refine ⟨hmem, hpid, hact, ?_⟩
      rcases hev with h | h
      · exact Or.inl (List.elem_iff.mp h)
      · exact Or.inr (List.elem_iff.mp h)
    · rintro ⟨hmem, hpid, hact, hev⟩
      simp only [matchingWebhooks, activeWebhooks, List.mem_filter, Bool.and_eq_true,
        Bool.or_eq_true, beq_iff_eq]
      refine ⟨⟨hmem, hpid, hact⟩, ?_⟩
      rcases hev with h | h
      · exact Or.inl (List.elem_iff.mpr h)
      · exact Or.inr (List.elem_iff.mpr h)
  · intro hnil
    unfold fire_webhook
    rw [hnil]
    rfl

/-- C5: for every pair drawn from the four valid roles,
`check_role_level actual required` is true iff `rank actual ≥ rank required`
under the ranks owner=4, admin=3, member=2, viewer=1. -/
theorem check_role_level_consistent_with_rank_order :
    (∀ a ∈ validRoles, ∀ r ∈ validRoles,
      (check_role_level a r = true ↔ ROLE_HIERARCHY r ≤ ROLE_HIERARCHY a)) ∧
    ROLE_HIERARCHY "owner" = 4 ∧ ROLE_HIERARCHY "admin" = 3 ∧
    ROLE_HIERARCHY "member" = 2 ∧ ROLE_HIERARCHY "viewer" = 1 := by
  refine ⟨?_, rfl, rfl, rfl, rfl⟩
  decide

/-- C4: `require_project_access` fails with 404 exactly when no
non-archived project with the slug exists; once the project is resolved
it fails with 403 "Not a project member" exactly when the principal has
no membership row in it; once the membership is resolved it returns the
`(project, membership)` pair when the membership's rank meets the
minimum role and fails with 403 otherwise; and every failure outcome is
a 404 or a 403. -/
theorem require_project_access_cases
    (projects : List ProjectRow) (members : List MemberRow)
    (slug : String) (userId : Nat) (min_role : String) :
    (require_project_access projects members slug userId min_role
        = .error ⟨404, "Project not found"⟩
      ↔ ∀ p ∈ projects, p.slug = slug → p.is_archived = true) ∧
    (∀ e, require_project_access projects members slug userId min_role = .error e →
      e.status_code = 404 ∨ e.status_code = 403) ∧
    (∀ p, projects.find? (fun q => q.slug == slug && !q.is_archived) = some p →
      ((require_project_access projects members slug userId min_role
          = .error ⟨403, "Not a project member"⟩
        ↔ ∀ m ∈ members, ¬(m.project_id = p.pid ∧ m.user_id = userId)) ∧
      (∀ m, members.find? (fun x => x.project_id == p.pid && x.user_id == userId) = some m →
        require_project_access projects members slug userId min_role
          = (if check_role_level m.role min_role
             then .ok (p, m)
             else .error ⟨403, "Requires at least " ++ min_role ++ " role"⟩)))) := by
  refine ⟨?_, ?_, ?_⟩
  · cases hfp : projects.find? (fun q => q.slug == slug && !q.is_archived) with
    | none =>
      constructor
      · intro _
        exact (project_find_none_iff projects slug).mp hfp
      · intro _
        simp [require_project_access, hfp]
    | some p =>
      constructor
      · intro hres
        exfalso
        simp only [require_project_access, hfp] at hres
        cases hfm : members.find? (fun m => m.project_id == p.pid && m.user_id == userId) with
        | none => rw [hfm] at hres; simp at hres
        | some m =>
          rw [hfm] at hres
          by_cases hrl : check_role_level m.role min_role
          · simp [hrl] at hres
          · simp [hrl] at hres
      · intro hall
        exfalso
        rw [← project_find_none_iff projects slug] at hall
        rw [hall] at hfp
        exact Option.noConfusion hfp
  · intro e hres
    cases hfp : projects.find? (fun q => q.slug == slug && !q.is_archived) with
    | none =>
      simp only [require_project_access, hfp] at hres
      simp at hres
      rw [← hres]
      left; rfl
    | some p =>
      simp only [require_project_access, hfp] at hres
      cases hfm : members.find? (fun m => m.project_id == p.pid && m.user_id == userId) with
      | none =>
        rw [hfm] at hres
        simp at hres
        rw [← hres]
        right; rfl
      | some m =>
        rw [hfm] at hres
        by_cases hrl : check_role_level m.role min_role
        · simp [hrl] at hres
        · simp [hrl] at hres
          rw [← hres]
          right; rfl
  · intro p hfp
    constructor
    · cases hfm : members.find? (fun m => m.project_id == p.pid && m.user_id == userId) with
      | none =>
        constructor
        · intro _
          exact (member_find_none_iff members p.pid userId).mp hfm
        · intro _
          simp [require_project_access, hfp, hfm]
      | some m =>
        constructor
        · intro hres
          exfalso
          simp only [require_project_access, hfp, hfm] at hres
          by_cases hrl : check_role_level m.role min_role
          · simp [hrl] at hres
          · simp [hrl] at hres
            exact role_detail_ne_not_member min_role hres
        · intro hall
          exfalso
          rw [← member_find_none_iff members p.pid userId] at hall
          rw [hall] at hfm
          exact Option.noConfusion hfm
    · intro m hfm
      by_cases hrl : check_role_level m.role min_role
      · simp [require_project_access, hfp, hfm, hrl]
      · simp [require_project_access, hfp, hfm, hrl]

